import Mathlib

/-!
Shallow embedding of the permission/role access-control evaluator
(`PermissionChecker` and its `checkPermissions` combined check) from
`src/routes/middleWare.tsx`, together with theorems settling the
specification claims about it.

The JS class holds a user snapshot, the derived permission and role lists,
and three memoization caches (string-keyed objects mapping a queried name
to a boolean).  We embed the instance as a record; each method that may
write a cache is a state-passing function returning its result together
with the updated record.  JS plain objects used as string→bool maps are
embedded as association lists (`List (String × Bool)`), written on a miss
by consing the new entry.
-/

/-- Embeds `Permission` model from `lib/api/models` (fields used by the evaluator). -/
structure Permission where
  name : String
  title : String
  guardName : String
  categoryName : String
deriving Repr, DecidableEq

/-- Embeds `Role` model from `lib/api/models` (fields used by the evaluator). -/
structure Role where
  name : String
  title : String
deriving Repr, DecidableEq

/-- The part of the `User` model the evaluator reads.  In the source both
list fields are optional (`user?.permissions || []`). -/
structure User where
  permissions : Option (List Permission)
  roles : Option (List Role)
deriving Repr, DecidableEq

/-- Embeds `PermissionCache` — a JS object used as a string→bool map. -/
abbrev PermissionCache := List (String × Bool)

/-- The `PermissionChecker` instance state: user snapshot, the two lists
captured by the constructor, and the three lazily-populated caches. -/
structure PermissionChecker where
  user : Option User
  permissions : List Permission
  roles : List Role
  permissionCache : PermissionCache
  roleCache : PermissionCache
  guardCache : PermissionCache
deriving Repr, DecidableEq

namespace PermissionChecker

/-- Embeds `new PermissionChecker(user)` (middleWare.tsx lines 62-66):
`this.permissions = user?.permissions || []`, `this.roles = user?.roles || []`,
caches start empty. -/
def create (user : Option User) : PermissionChecker :=
  { user := user
    permissions := (user.bind User.permissions).getD []
    roles := (user.bind User.roles).getD []
    permissionCache := []
    roleCache := []
    guardCache := [] }

/-- Embeds `clearCache()` (lines 71-75): resets all three caches to empty objects. -/
def clearCache (c : PermissionChecker) : PermissionChecker :=
  { c with permissionCache := [], roleCache := [], guardCache := [] }

/-- Embeds `getCachedPermission(permissionName)` (lines 80-87): on a cache miss,
scan `this.permissions` with `some((p) => p.name === permissionName)` and
record the result. -/
def getCachedPermission (c : PermissionChecker) (permissionName : String) :
    Bool × PermissionChecker :=
  match c.permissionCache.lookup permissionName with
  | some b => (b, c)
  | none =>
      let b := c.permissions.any (fun permission => permission.name == permissionName)
      (b, { c with permissionCache := (permissionName, b) :: c.permissionCache })

/-- Embeds `getCachedRole(roleName)` (lines 92-97). -/
def getCachedRole (c : PermissionChecker) (roleName : String) :
    Bool × PermissionChecker :=
  match c.roleCache.lookup roleName with
  | some b => (b, c)
  | none =>
      let b := c.roles.any (fun role => role.name == roleName)
      (b, { c with roleCache := (roleName, b) :: c.roleCache })

/-- Embeds `getCachedGuard(guardName)` (lines 102-109): scans `this.permissions`
by the `guardName` field. -/
def getCachedGuard (c : PermissionChecker) (guardName : String) :
    Bool × PermissionChecker :=
  match c.guardCache.lookup guardName with
  | some b => (b, c)
  | none =>
      let b := c.permissions.any (fun permission => permission.guardName == guardName)
      (b, { c with guardCache := (guardName, b) :: c.guardCache })

/-- Embeds `hasPermission(permissionName)` (lines 114-116). -/
def hasPermission (c : PermissionChecker) (permissionName : String) :
    Bool × PermissionChecker :=
  c.getCachedPermission permissionName

/-- Embeds `hasPermissionByGuard(guardName)` (lines 121-123). -/
def hasPermissionByGuard (c : PermissionChecker) (guardName : String) :
    Bool × PermissionChecker :=
  c.getCachedGuard guardName

/-- Embeds `hasRole(roleName)` (lines 128-130). -/
def hasRole (c : PermissionChecker) (roleName : String) :
    Bool × PermissionChecker :=
  c.getCachedRole roleName

/-- Embeds `hasAnyPermission(permissions)` (lines 135-137): JS `Array.some`, which
short-circuits on the first true, threading the cache writes. -/
def hasAnyPermission (c : PermissionChecker) :
    List String → Bool × PermissionChecker
  | [] => (false, c)
  | n :: ns =>
      let r := c.hasPermission n
      if r.1 then (true, r.2) else r.2.hasAnyPermission ns

/-- Embeds `hasAllPermissions(permissions)` (lines 142-144): JS `Array.every`,
short-circuiting on the first false. -/
def hasAllPermissions (c : PermissionChecker) :
    List String → Bool × PermissionChecker
  | [] => (true, c)
  | n :: ns =>
      let r := c.hasPermission n
      if r.1 then r.2.hasAllPermissions ns else (false, r.2)

/-- Embeds `hasAnyRole(roles)` (lines 149-151). -/
def hasAnyRole (c : PermissionChecker) :
    List String → Bool × PermissionChecker
  | [] => (false, c)
  | n :: ns =>
      let r := c.hasRole n
      if r.1 then (true, r.2) else r.2.hasAnyRole ns

/-- Embeds `hasAllRoles(roles)` (lines 156-158). -/
def hasAllRoles (c : PermissionChecker) :
    List String → Bool × PermissionChecker
  | [] => (true, c)
  | n :: ns =>
      let r := c.hasRole n
      if r.1 then r.2.hasAllRoles ns else (false, r.2)

/-- Embeds `hasAnyGuard(guardNames)` (lines 163-165). -/
def hasAnyGuard (c : PermissionChecker) :
    List String → Bool × PermissionChecker
  | [] => (false, c)
  | n :: ns =>
      let r := c.hasPermissionByGuard n
      if r.1 then (true, r.2) else r.2.hasAnyGuard ns

/-- Embeds `hasAllGuards(guardNames)` (lines 170-172). -/
def hasAllGuards (c : PermissionChecker) :
    List String → Bool × PermissionChecker
  | [] => (true, c)
  | n :: ns =>
      let r := c.hasPermissionByGuard n
      if r.1 then r.2.hasAllGuards ns else (false, r.2)

/-- Embeds `isAuthenticated()` (lines 278-280): `!!this.user`. -/
def isAuthenticated (c : PermissionChecker) : Bool :=
  c.user.isSome

/-- The filter callback `(p) => !this.hasPermission(p)` of line 211, with the
cache writes of each `hasPermission` call threaded (JS `Array.filter` visits
every element). -/
def filterMissingPermissions (c : PermissionChecker) :
    List String → List String × PermissionChecker
  | [] => ([], c)
  | n :: ns =>
      let r := c.hasPermission n
      let rest := r.2.filterMissingPermissions ns
      if r.1 then rest else (n :: rest.1, rest.2)

/-- The filter callback `(r) => !this.hasRole(r)` of line 223. -/
def filterMissingRoles (c : PermissionChecker) :
    List String → List String × PermissionChecker
  | [] => ([], c)
  | n :: ns =>
      let r := c.hasRole n
      let rest := r.2.filterMissingRoles ns
      if r.1 then rest else (n :: rest.1, rest.2)

/-- The filter callback `(g) => !this.hasPermissionByGuard(g)` of line 237. -/
def filterMissingGuards (c : PermissionChecker) :
    List String → List String × PermissionChecker
  | [] => ([], c)
  | n :: ns =>
      let r := c.hasPermissionByGuard n
      let rest := r.2.filterMissingGuards ns
      if r.1 then rest else (n :: rest.1, rest.2)

end PermissionChecker

/-- The options record of `checkPermissions` (lines 177-182, with the
defaults of lines 184-189). -/
structure CheckOptions where
  requiredPermissions : List String := []
  requiredRoles : List String := []
  requiredGuardNames : List String := []
  requireAll : Bool := false
deriving Repr, DecidableEq

/-- The errors the evaluator can raise internally.  Inside the `try` block
of `checkPermissions` the only throw site is the `AuthenticationError` of
line 193; the embedded list traversals are total. -/
inductive CheckError where
  | authenticationError (message : String)
deriving Repr, DecidableEq

/-- Embeds `PermissionCheckResult` (lines 19-26). -/
structure PermissionCheckResult where
  hasPermission : Bool
  missingPermissions : List String
  missingRoles : List String
  userPermissions : List String
  userRoles : List String
  error : Option CheckError := none
deriving Repr, DecidableEq

namespace PermissionChecker

/-- The permissions-category block of `checkPermissions` (lines 204-213):
when the required list is non-empty, evaluate ALL or ANY per `requireAll`;
on failure report `false` together with the required names that
individually fail `hasPermission`. -/
def permissionsCategory (c : PermissionChecker) (required : List String)
    (requireAll : Bool) : (Bool × List String) × PermissionChecker :=
  if required.length > 0 then
    let req :=
      if requireAll then c.hasAllPermissions required
      else c.hasAnyPermission required
    if !req.1 then
      let miss := req.2.filterMissingPermissions required
      ((false, miss.1), miss.2)
    else ((true, []), req.2)
  else ((true, []), c)

/-- The roles-category block of `checkPermissions` (lines 216-225). -/
def rolesCategory (c : PermissionChecker) (required : List String)
    (requireAll : Bool) : (Bool × List String) × PermissionChecker :=
  if required.length > 0 then
    let req :=
      if requireAll then c.hasAllRoles required
      else c.hasAnyRole required
    if !req.1 then
      let miss := req.2.filterMissingRoles required
      ((false, miss.1), miss.2)
    else ((true, []), req.2)
  else ((true, []), c)

/-- The guard-names-category block of `checkPermissions` (lines 228-240). -/
def guardsCategory (c : PermissionChecker) (required : List String)
    (requireAll : Bool) : (Bool × List String) × PermissionChecker :=
  if required.length > 0 then
    let req :=
      if requireAll then c.hasAllGuards required
      else c.hasAnyGuard required
    if !req.1 then
      let miss := req.2.filterMissingGuards required
      ((false, miss.1), miss.2)
    else ((true, []), req.2)
  else ((true, []), c)

/-- Embeds `checkPermissions(options)` (lines 177-259).  The three category blocks
run in source order over the threaded state; `hasPermission` starts `true`
and each failing non-empty category sets it `false`; permission-name and
guard-name failures are both pushed onto `missingPermissions`.  The
`catch` of lines 249-258 converts the authentication throw into a negative
result with empty lists and the error attached. -/
def checkPermissions (c : PermissionChecker) (options : CheckOptions) :
    PermissionCheckResult × PermissionChecker :=
  if !c.isAuthenticated then
    ({ hasPermission := false
       missingPermissions := []
       missingRoles := []
       userPermissions := []
       userRoles := []
       error := some (.authenticationError "User is not authenticated") }, c)
  else
    let userPermissions := c.permissions.map (fun p => p.name)
    let userRoles := c.roles.map (fun r => r.name)
    let permStep := c.permissionsCategory options.requiredPermissions options.requireAll
    let roleStep := permStep.2.rolesCategory options.requiredRoles options.requireAll
    let guardStep := roleStep.2.guardsCategory options.requiredGuardNames options.requireAll
    ({ hasPermission := permStep.1.1 && roleStep.1.1 && guardStep.1.1
       missingPermissions := permStep.1.2 ++ guardStep.1.2
       missingRoles := roleStep.1.2
       userPermissions := userPermissions
       userRoles := userRoles
       error := none }, guardStep.2)

end PermissionChecker

/-- One call of the evaluator's public interface, used to quantify over the
sequence of prior queries made on an instance. -/
inductive Query where
  | qHasPermission (name : String)
  | qHasPermissionByGuard (name : String)
  | qHasRole (name : String)
  | qHasAnyPermission (names : List String)
  | qHasAllPermissions (names : List String)
  | qHasAnyRole (names : List String)
  | qHasAllRoles (names : List String)
  | qHasAnyGuard (names : List String)
  | qHasAllGuards (names : List String)
  | qCheckPermissions (options : CheckOptions)
  | qClearCache
deriving Repr, DecidableEq

namespace PermissionChecker

/-- Apply one interface call to the instance state, discarding the result. -/
def applyQuery (c : PermissionChecker) : Query → PermissionChecker
  | .qHasPermission n => (c.hasPermission n).2
  | .qHasPermissionByGuard n => (c.hasPermissionByGuard n).2
  | .qHasRole n => (c.hasRole n).2
  | .qHasAnyPermission ns => (c.hasAnyPermission ns).2
  | .qHasAllPermissions ns => (c.hasAllPermissions ns).2
  | .qHasAnyRole ns => (c.hasAnyRole ns).2
  | .qHasAllRoles ns => (c.hasAllRoles ns).2
  | .qHasAnyGuard ns => (c.hasAnyGuard ns).2
  | .qHasAllGuards ns => (c.hasAllGuards ns).2
  | .qCheckPermissions o => (c.checkPermissions o).2
  | .qClearCache => c.clearCache

/-- Apply a sequence of interface calls, in order. -/
def applyQueries (c : PermissionChecker) (qs : List Query) : PermissionChecker :=
  qs.foldl applyQuery c

end PermissionChecker

/-! Pure, cache-free membership functions: the right-hand sides the claims
compare the stateful evaluator against. -/

/-- Pure meaning of `hasPermission`: exact, case-sensitive name match over
the permission list. -/
def specHasPermission (perms : List Permission) (n : String) : Bool :=
  perms.any (fun p => p.name == n)

/-- Pure meaning of `hasRole`. -/
def specHasRole (roles : List Role) (n : String) : Bool :=
  roles.any (fun r => r.name == n)

/-- Pure meaning of `hasPermissionByGuard`. -/
def specHasGuard (perms : List Permission) (n : String) : Bool :=
  perms.any (fun p => p.guardName == n)

/-- One category of the combined check: trivially satisfied when the
required list is empty, otherwise ALL (`requireAll = true`) or ANY
(`requireAll = false`) of the per-name predicate. -/
def categorySatisfied (pred : String → Bool) (required : List String)
    (requireAll : Bool) : Bool :=
  required.isEmpty || (if requireAll then required.all pred else required.any pred)

/-- The names a category contributes to the missing lists: the required
names that individually fail the per-name predicate, collected only when
the category as a whole failed. -/
def specCategoryMissing (pred : String → Bool) (required : List String)
    (requireAll : Bool) : List String :=
  if categorySatisfied pred required requireAll then []
  else required.filter (fun n => !(pred n))

/-! Concrete data of the spec's worked scenarios. -/

/-- The `user.read` permission of the concrete scenarios. -/
def permUserRead : Permission :=
  { name := "user.read", title := "User Read", guardName := "web"
    categoryName := "user" }

/-- The `admin` role of the concrete scenarios. -/
def roleAdmin : Role :=
  { name := "admin", title := "Administrator" }

/-- Scenario A/B user: holds only `user.read`. -/
def scenarioUserAB : User :=
  { permissions := some [permUserRead], roles := some [roleAdmin] }

/-- Scenario D user: no permissions, role `admin`. -/
def scenarioUserD : User :=
  { permissions := some [], roles := some [roleAdmin] }

/-- A user with empty permission and role lists. -/
def emptyUser : User :=
  { permissions := some [], roles := some [] }

/-- Embeds `getUserPermissions()` (lines 264-266). -/
def PermissionChecker.getUserPermissions (c : PermissionChecker) : List Permission :=
  c.permissions

/-- Embeds `getUserRoles()` (lines 271-273). -/
def PermissionChecker.getUserRoles (c : PermissionChecker) : List Role :=
  c.roles

/-! ## Invariants of the instance state -/

namespace PermissionChecker

/-- Every permission-name cache entry agrees with a fresh scan of the
permission list. -/
def PermInv (c : PermissionChecker) : Prop :=
  ∀ n b, c.permissionCache.lookup n = some b → b = specHasPermission c.permissions n

/-- Every role-name cache entry agrees with a fresh scan of the role list. -/
def RoleInv (c : PermissionChecker) : Prop :=
  ∀ n b, c.roleCache.lookup n = some b → b = specHasRole c.roles n

/-- Every guard-name cache entry agrees with a fresh scan of the
permission list by guard name. -/
def GuardInv (c : PermissionChecker) : Prop :=
  ∀ n b, c.guardCache.lookup n = some b → b = specHasGuard c.permissions n

/-- All three caches are consistent with the lists. -/
def Inv (c : PermissionChecker) : Prop := PermInv c ∧ RoleInv c ∧ GuardInv c

/-- State `d` is a later state of the same instance after non-clearing calls:
the user snapshot and both lists are unchanged and every cache entry of
`c` survives in `d` with the same value. -/
def evolves (c d : PermissionChecker) : Prop :=
  d.user = c.user ∧ d.permissions = c.permissions ∧ d.roles = c.roles ∧
  (∀ n b, c.permissionCache.lookup n = some b → d.permissionCache.lookup n = some b) ∧
  (∀ n b, c.roleCache.lookup n = some b → d.roleCache.lookup n = some b) ∧
  (∀ n b, c.guardCache.lookup n = some b → d.guardCache.lookup n = some b)

theorem evolves_refl (c : PermissionChecker) : evolves c c :=
  ⟨rfl, rfl, rfl, fun _ _ h => h, fun _ _ h => h, fun _ _ h => h⟩

theorem evolves_trans {a b c : PermissionChecker} (h1 : evolves a b)
    (h2 : evolves b c) : evolves a c := by
  obtain ⟨u1, p1, r1, pc1, rc1, gc1⟩ := h1
  obtain ⟨u2, p2, r2, pc2, rc2, gc2⟩ := h2
  exact ⟨u2.trans u1, p2.trans p1, r2.trans r1,
    fun n b h => pc2 n b (pc1 n b h), fun n b h => rc2 n b (rc1 n b h),
    fun n b h => gc2 n b (gc1 n b h)⟩

theorem create_Inv (u : Option User) : Inv (create u) := by
  refine ⟨?_, ?_, ?_⟩ <;> intro n b h <;> simp [create] at h

theorem clearCache_Inv (c : PermissionChecker) : Inv c.clearCache := by
  refine ⟨?_, ?_, ?_⟩ <;> intro n b h <;> simp [clearCache] at h

theorem clearCache_lists (c : PermissionChecker) :
    c.clearCache.user = c.user ∧ c.clearCache.permissions = c.permissions ∧
      c.clearCache.roles = c.roles :=
  ⟨rfl, rfl, rfl⟩

/-! ### The cached primitive lookups -/

theorem getCachedPermission_fst (c : PermissionChecker) (n : String)
    (h : PermInv c) :
    (c.getCachedPermission n).1 = specHasPermission c.permissions n := by
  unfold getCachedPermission
  split
  · next b hb => exact h n b hb
  · rfl

theorem getCachedPermission_evolves (c : PermissionChecker) (n : String) :
    evolves c (c.getCachedPermission n).2 := by
  unfold getCachedPermission
  split
  · exact evolves_refl c
  · next hnone =>
    refine ⟨rfl, rfl, rfl, ?_, fun _ _ h => h, fun _ _ h => h⟩
    intro m b hm
    have hne : (m == n) = false := by
      rcases hmn : m == n with _ | _
      · rfl
      · exact absurd (eq_of_beq hmn ▸ hm) (by simp [hnone])
    simpa [List.lookup_cons, hne] using hm

theorem getCachedPermission_Inv (c : PermissionChecker) (n : String)
    (h : Inv c) : Inv (c.getCachedPermission n).2 := by
  obtain ⟨hp, hr, hg⟩ := h
  unfold getCachedPermission
  split
  · exact ⟨hp, hr, hg⟩
  · next hnone =>
    refine ⟨?_, hr, hg⟩
    intro m b hm
    rcases hmn : m == n with _ | _
    · exact hp m b (by simpa [List.lookup_cons, hmn] using hm)
    · have : m = n := eq_of_beq hmn
      subst this
      simpa [List.lookup_cons] using hm.symm

theorem getCachedRole_fst (c : PermissionChecker) (n : String)
    (h : RoleInv c) :
    (c.getCachedRole n).1 = specHasRole c.roles n := by
  unfold getCachedRole
  split
  · next b hb => exact h n b hb
  · rfl

theorem getCachedRole_evolves (c : PermissionChecker) (n : String) :
    evolves c (c.getCachedRole n).2 := by
  unfold getCachedRole
  split
  · exact evolves_refl c
  · next hnone =>
    refine ⟨rfl, rfl, rfl, fun _ _ h => h, ?_, fun _ _ h => h⟩
    intro m b hm
    have hne : (m == n) = false := by
      rcases hmn : m == n with _ | _
      · rfl
      · exact absurd (eq_of_beq hmn ▸ hm) (by simp [hnone])
    simpa [List.lookup_cons, hne] using hm

theorem getCachedRole_Inv (c : PermissionChecker) (n : String)
    (h : Inv c) : Inv (c.getCachedRole n).2 := by
  obtain ⟨hp, hr, hg⟩ := h
  unfold getCachedRole
  split
  · exact ⟨hp, hr, hg⟩
  · next hnone =>
    refine ⟨hp, ?_, hg⟩
    intro m b hm
    rcases hmn : m == n with _ | _
    · exact hr m b (by simpa [List.lookup_cons, hmn] using hm)
    · have : m = n := eq_of_beq hmn
      subst this
      simpa [List.lookup_cons] using hm.symm

theorem getCachedGuard_fst (c : PermissionChecker) (n : String)
    (h : GuardInv c) :
    (c.getCachedGuard n).1 = specHasGuard c.permissions n := by
  unfold getCachedGuard
  split
  · next b hb => exact h n b hb
  · rfl

theorem getCachedGuard_evolves (c : PermissionChecker) (n : String) :
    evolves c (c.getCachedGuard n).2 := by
  unfold getCachedGuard
  split
  · exact evolves_refl c
  · next hnone =>
    refine ⟨rfl, rfl, rfl, fun _ _ h => h, fun _ _ h => h, ?_⟩
    intro m b hm
    have hne : (m == n) = false := by
      rcases hmn : m == n with _ | _
      · rfl
      · exact absurd (eq_of_beq hmn ▸ hm) (by simp [hnone])
    simpa [List.lookup_cons, hne] using hm

theorem getCachedGuard_Inv (c : PermissionChecker) (n : String)
    (h : Inv c) : Inv (c.getCachedGuard n).2 := by
  obtain ⟨hp, hr, hg⟩ := h
  unfold getCachedGuard
  split
  · exact ⟨hp, hr, hg⟩
  · next hnone =>
    refine ⟨hp, hr, ?_⟩
    intro m b hm
    rcases hmn : m == n with _ | _
    · exact hg m b (by simpa [List.lookup_cons, hmn] using hm)
    · have : m = n := eq_of_beq hmn
      subst this
      simpa [List.lookup_cons] using hm.symm

/-! ### The single-name public queries -/

theorem hasPermission_fst (c : PermissionChecker) (n : String) (h : Inv c) :
    (c.hasPermission n).1 = specHasPermission c.permissions n :=
  getCachedPermission_fst c n h.1

theorem hasPermission_evolves (c : PermissionChecker) (n : String) :
    evolves c (c.hasPermission n).2 :=
  getCachedPermission_evolves c n

theorem hasPermission_Inv (c : PermissionChecker) (n : String) (h : Inv c) :
    Inv (c.hasPermission n).2 :=
  getCachedPermission_Inv c n h

theorem hasRole_fst (c : PermissionChecker) (n : String) (h : Inv c) :
    (c.hasRole n).1 = specHasRole c.roles n :=
  getCachedRole_fst c n h.2.1

theorem hasRole_evolves (c : PermissionChecker) (n : String) :
    evolves c (c.hasRole n).2 :=
  getCachedRole_evolves c n

theorem hasRole_Inv (c : PermissionChecker) (n : String) (h : Inv c) :
    Inv (c.hasRole n).2 :=
  getCachedRole_Inv c n h

theorem hasPermissionByGuard_fst (c : PermissionChecker) (n : String)
    (h : Inv c) :
    (c.hasPermissionByGuard n).1 = specHasGuard c.permissions n :=
  getCachedGuard_fst c n h.2.2

theorem hasPermissionByGuard_evolves (c : PermissionChecker) (n : String) :
    evolves c (c.hasPermissionByGuard n).2 :=
  getCachedGuard_evolves c n

theorem hasPermissionByGuard_Inv (c : PermissionChecker) (n : String)
    (h : Inv c) : Inv (c.hasPermissionByGuard n).2 :=
  getCachedGuard_Inv c n h

/-! ### The list queries -/

theorem hasAnyPermission_evolves (c : PermissionChecker) (l : List String) :
    evolves c (c.hasAnyPermission l).2 := by
  induction l generalizing c with
  | nil => exact evolves_refl c
  | cons n ns ih =>
    simp only [hasAnyPermission]
    rcases hb : (c.hasPermission n).1 with _ | _
    · simpa [hb] using evolves_trans (hasPermission_evolves c n) (ih _)
    · simpa [hb] using hasPermission_evolves c n

theorem hasAnyPermission_fst (c : PermissionChecker) (l : List String)
    (h : Inv c) :
    (c.hasAnyPermission l).1 = l.any (specHasPermission c.permissions) ∧
      Inv (c.hasAnyPermission l).2 := by
  induction l generalizing c with
  | nil => exact ⟨rfl, h⟩
  | cons n ns ih =>
    have hfst := hasPermission_fst c n h
    have hinv := hasPermission_Inv c n h
    have hev := hasPermission_evolves c n
    simp only [hasAnyPermission, List.any_cons]
    rcases hb : (c.hasPermission n).1 with _ | _
    · have hspec := hfst.symm.trans hb
      obtain ⟨ih1, ih2⟩ := ih (c.hasPermission n).2 hinv
      rw [hev.2.1] at ih1
      simp [hb, hspec, ih1, ih2]
    · have hspec := hfst.symm.trans hb
      simp [hb, hspec, hinv]

theorem hasAllPermissions_evolves (c : PermissionChecker) (l : List String) :
    evolves c (c.hasAllPermissions l).2 := by
  induction l generalizing c with
  | nil => exact evolves_refl c
  | cons n ns ih =>
    simp only [hasAllPermissions]
    rcases hb : (c.hasPermission n).1 with _ | _
    · simpa [hb] using hasPermission_evolves c n
    · simpa [hb] using evolves_trans (hasPermission_evolves c n) (ih _)

theorem hasAllPermissions_fst (c : PermissionChecker) (l : List String)
    (h : Inv c) :
    (c.hasAllPermissions l).1 = l.all (specHasPermission c.permissions) ∧
      Inv (c.hasAllPermissions l).2 := by
  induction l generalizing c with
  | nil => exact ⟨rfl, h⟩
  | cons n ns ih =>
    have hfst := hasPermission_fst c n h
    have hinv := hasPermission_Inv c n h
    have hev := hasPermission_evolves c n
    simp only [hasAllPermissions, List.all_cons]
    rcases hb : (c.hasPermission n).1 with _ | _
    · have hspec := hfst.symm.trans hb
      simp [hb, hspec, hinv]
    · have hspec := hfst.symm.trans hb
      obtain ⟨ih1, ih2⟩ := ih (c.hasPermission n).2 hinv
      rw [hev.2.1] at ih1
      simp [hb, hspec, ih1, ih2]

theorem hasAnyRole_evolves (c : PermissionChecker) (l : List String) :
    evolves c (c.hasAnyRole l).2 := by
  induction l generalizing c with
  | nil => exact evolves_refl c
  | cons n ns ih =>
    simp only [hasAnyRole]
    rcases hb : (c.hasRole n).1 with _ | _
    · simpa [hb] using evolves_trans (hasRole_evolves c n) (ih _)
    · simpa [hb] using hasRole_evolves c n

theorem hasAnyRole_fst (c : PermissionChecker) (l : List String)
    (h : Inv c) :
    (c.hasAnyRole l).1 = l.any (specHasRole c.roles) ∧
      Inv (c.hasAnyRole l).2 := by
  induction l generalizing c with
  | nil => exact ⟨rfl, h⟩
  | cons n ns ih =>
    have hfst := hasRole_fst c n h
    have hinv := hasRole_Inv c n h
    have hev := hasRole_evolves c n
    simp only [hasAnyRole, List.any_cons]
    rcases hb : (c.hasRole n).1 with _ | _
    · have hspec := hfst.symm.trans hb
      obtain ⟨ih1, ih2⟩ := ih (c.hasRole n).2 hinv
      rw [hev.2.2.1] at ih1
      simp [hb, hspec, ih1, ih2]
    · have hspec := hfst.symm.trans hb
      simp [hb, hspec, hinv]

theorem hasAllRoles_evolves (c : PermissionChecker) (l : List String) :
    evolves c (c.hasAllRoles l).2 := by
  induction l generalizing c with
  | nil => exact evolves_refl c
  | cons n ns ih =>
    simp only [hasAllRoles]
    rcases hb : (c.hasRole n).1 with _ | _
    · simpa [hb] using hasRole_evolves c n
    · simpa [hb] using evolves_trans (hasRole_evolves c n) (ih _)

theorem hasAllRoles_fst (c : PermissionChecker) (l : List String)
    (h : Inv c) :
    (c.hasAllRoles l).1 = l.all (specHasRole c.roles) ∧
      Inv (c.hasAllRoles l).2 := by
  induction l generalizing c with
  | nil => exact ⟨rfl, h⟩
  | cons n ns ih =>
    have hfst := hasRole_fst c n h
    have hinv := hasRole_Inv c n h
    have hev := hasRole_evolves c n
    simp only [hasAllRoles, List.all_cons]
    rcases hb : (c.hasRole n).1 with _ | _
    · have hspec := hfst.symm.trans hb
      simp [hb, hspec, hinv]
    · have hspec := hfst.symm.trans hb
      obtain ⟨ih1, ih2⟩ := ih (c.hasRole n).2 hinv
      rw [hev.2.2.1] at ih1
      simp [hb, hspec, ih1, ih2]

theorem hasAnyGuard_evolves (c : PermissionChecker) (l : List String) :
    evolves c (c.hasAnyGuard l).2 := by
  induction l generalizing c with
  | nil => exact evolves_refl c
  | cons n ns ih =>
    simp only [hasAnyGuard]
    rcases hb : (c.hasPermissionByGuard n).1 with _ | _
    · simpa [hb] using evolves_trans (hasPermissionByGuard_evolves c n) (ih _)
    · simpa [hb] using hasPermissionByGuard_evolves c n

theorem hasAnyGuard_fst (c : PermissionChecker) (l : List String)
    (h : Inv c) :
    (c.hasAnyGuard l).1 = l.any (specHasGuard c.permissions) ∧
      Inv (c.hasAnyGuard l).2 := by
  induction l generalizing c with
  | nil => exact ⟨rfl, h⟩
  | cons n ns ih =>
    have hfst := hasPermissionByGuard_fst c n h
    have hinv := hasPermissionByGuard_Inv c n h
    have hev := hasPermissionByGuard_evolves c n
    simp only [hasAnyGuard, List.any_cons]
    rcases hb : (c.hasPermissionByGuard n).1 with _ | _
    · have hspec := hfst.symm.trans hb
      obtain ⟨ih1, ih2⟩ := ih (c.hasPermissionByGuard n).2 hinv
      rw [hev.2.1] at ih1
      simp [hb, hspec, ih1, ih2]
    · have hspec := hfst.symm.trans hb
      simp [hb, hspec, hinv]

theorem hasAllGuards_evolves (c : PermissionChecker) (l : List String) :
    evolves c (c.hasAllGuards l).2 := by
  induction l generalizing c with
  | nil => exact evolves_refl c
  | cons n ns ih =>
    simp only [hasAllGuards]
    rcases hb : (c.hasPermissionByGuard n).1 with _ | _
    · simpa [hb] using hasPermissionByGuard_evolves c n
    · simpa [hb] using evolves_trans (hasPermissionByGuard_evolves c n) (ih _)

theorem hasAllGuards_fst (c : PermissionChecker) (l : List String)
    (h : Inv c) :
    (c.hasAllGuards l).1 = l.all (specHasGuard c.permissions) ∧
      Inv (c.hasAllGuards l).2 := by
  induction l generalizing c with
  | nil => exact ⟨rfl, h⟩
  | cons n ns ih =>
    have hfst := hasPermissionByGuard_fst c n h
    have hinv := hasPermissionByGuard_Inv c n h
    have hev := hasPermissionByGuard_evolves c n
    simp only [hasAllGuards, List.all_cons]
    rcases hb : (c.hasPermissionByGuard n).1 with _ | _
    · have hspec := hfst.symm.trans hb
      simp [hb, hspec, hinv]
    · have hspec := hfst.symm.trans hb
      obtain ⟨ih1, ih2⟩ := ih (c.hasPermissionByGuard n).2 hinv
      rw [hev.2.1] at ih1
      simp [hb, hspec, ih1, ih2]

/-! ### The missing-name filters -/

theorem filterMissingPermissions_evolves (c : PermissionChecker)
    (l : List String) : evolves c (c.filterMissingPermissions l).2 := by
  induction l generalizing c with
  | nil => exact evolves_refl c
  | cons n ns ih =>
    simp only [filterMissingPermissions]
    rcases hb : (c.hasPermission n).1 with _ | _ <;>
      simpa [hb] using evolves_trans (hasPermission_evolves c n) (ih _)

theorem filterMissingPermissions_fst (c : PermissionChecker) (l : List String)
    (h : Inv c) :
    (c.filterMissingPermissions l).1 =
        l.filter (fun n => !(specHasPermission c.permissions n)) ∧
      Inv (c.filterMissingPermissions l).2 := by
  induction l generalizing c with
  | nil => exact ⟨rfl, h⟩
  | cons n ns ih =>
    have hfst := hasPermission_fst c n h
    have hinv := hasPermission_Inv c n h
    have hev := hasPermission_evolves c n
    obtain ⟨ih1, ih2⟩ := ih (c.hasPermission n).2 hinv
    rw [hev.2.1] at ih1
    simp only [filterMissingPermissions, List.filter_cons]
    rcases hb : (c.hasPermission n).1 with _ | _ <;>
      · have hspec := hfst.symm.trans hb
        simp [hb, hspec, ih1, ih2]

theorem filterMissingRoles_evolves (c : PermissionChecker)
    (l : List String) : evolves c (c.filterMissingRoles l).2 := by
  induction l generalizing c with
  | nil => exact evolves_refl c
  | cons n ns ih =>
    simp only [filterMissingRoles]
    rcases hb : (c.hasRole n).1 with _ | _ <;>
      simpa [hb] using evolves_trans (hasRole_evolves c n) (ih _)

theorem filterMissingRoles_fst (c : PermissionChecker) (l : List String)
    (h : Inv c) :
    (c.filterMissingRoles l).1 =
        l.filter (fun n => !(specHasRole c.roles n)) ∧
      Inv (c.filterMissingRoles l).2 := by
  induction l generalizing c with
  | nil => exact ⟨rfl, h⟩
  | cons n ns ih =>
    have hfst := hasRole_fst c n h
    have hinv := hasRole_Inv c n h
    have hev := hasRole_evolves c n
    obtain ⟨ih1, ih2⟩ := ih (c.hasRole n).2 hinv
    rw [hev.2.2.1] at ih1
    simp only [filterMissingRoles, List.filter_cons]
    rcases hb : (c.hasRole n).1 with _ | _ <;>
      · have hspec := hfst.symm.trans hb
        simp [hb, hspec, ih1, ih2]

theorem filterMissingGuards_evolves (c : PermissionChecker)
    (l : List String) : evolves c (c.filterMissingGuards l).2 := by
  induction l generalizing c with
  | nil => exact evolves_refl c
  | cons n ns ih =>
    simp only [filterMissingGuards]
    rcases hb : (c.hasPermissionByGuard n).1 with _ | _ <;>
      simpa [hb] using evolves_trans (hasPermissionByGuard_evolves c n) (ih _)

theorem filterMissingGuards_fst (c : PermissionChecker) (l : List String)
    (h : Inv c) :
    (c.filterMissingGuards l).1 =
        l.filter (fun n => !(specHasGuard c.permissions n)) ∧
      Inv (c.filterMissingGuards l).2 := by
  induction l generalizing c with
  | nil => exact ⟨rfl, h⟩
  | cons n ns ih =>
    have hfst := hasPermissionByGuard_fst c n h
    have hinv := hasPermissionByGuard_Inv c n h
    have hev := hasPermissionByGuard_evolves c n
    obtain ⟨ih1, ih2⟩ := ih (c.hasPermissionByGuard n).2 hinv
    rw [hev.2.1] at ih1
    simp only [filterMissingGuards, List.filter_cons]
    rcases hb : (c.hasPermissionByGuard n).1 with _ | _ <;>
      · have hspec := hfst.symm.trans hb
        simp [hb, hspec, ih1, ih2]

/-! ### The three category blocks of the combined check -/

theorem permissionsCategory_evolves (c : PermissionChecker)
    (required : List String) (ra : Bool) :
    evolves c (c.permissionsCategory required ra).2 := by
  unfold permissionsCategory
  by_cases hl : required.length > 0
  · simp only [hl, if_true]
    rcases ra with _ | _
    · rcases hq : (c.hasAnyPermission required).1 with _ | _
      · simpa [hq] using evolves_trans (hasAnyPermission_evolves c required)
          (filterMissingPermissions_evolves _ required)
      · simpa [hq] using hasAnyPermission_evolves c required
    · rcases hq : (c.hasAllPermissions required).1 with _ | _
      · simpa [hq] using evolves_trans (hasAllPermissions_evolves c required)
          (filterMissingPermissions_evolves _ required)
      · simpa [hq] using hasAllPermissions_evolves c required
  · simpa [hl] using evolves_refl c

theorem permissionsCategory_spec (c : PermissionChecker)
    (required : List String) (ra : Bool) (h : Inv c) :
    (c.permissionsCategory required ra).1.1 =
        categorySatisfied (specHasPermission c.permissions) required ra ∧
    (c.permissionsCategory required ra).1.2 =
        specCategoryMissing (specHasPermission c.permissions) required ra ∧
    Inv (c.permissionsCategory required ra).2 := by
  cases required with
  | nil => simpa [permissionsCategory, categorySatisfied, specCategoryMissing] using h
  | cons a as =>
    have hlen : (a :: as).length > 0 := Nat.succ_pos _
    rcases ra with _ | _
    · obtain ⟨h1, h2⟩ := hasAnyPermission_fst c (a :: as) h
      have hev := hasAnyPermission_evolves c (a :: as)
      have hcat : categorySatisfied (specHasPermission c.permissions) (a :: as) false
          = (a :: as).any (specHasPermission c.permissions) := by
        simp [categorySatisfied]
      rcases hq : (c.hasAnyPermission (a :: as)).1 with _ | _
      · have hval := h1.symm.trans hq
        obtain ⟨hf1, hf2⟩ :=
          filterMissingPermissions_fst (c.hasAnyPermission (a :: as)).2 (a :: as) h2
        rw [hev.2.1] at hf1
        simp [permissionsCategory, hlen, hq, hcat, hval, specCategoryMissing, hf1, hf2]
      · have hval := h1.symm.trans hq
        simp [permissionsCategory, hlen, hq, hcat, hval, specCategoryMissing, h2]
    · obtain ⟨h1, h2⟩ := hasAllPermissions_fst c (a :: as) h
      have hev := hasAllPermissions_evolves c (a :: as)
      have hcat : categorySatisfied (specHasPermission c.permissions) (a :: as) true
          = (a :: as).all (specHasPermission c.permissions) := by
        simp [categorySatisfied]
      rcases hq : (c.hasAllPermissions (a :: as)).1 with _ | _
      · have hval := h1.symm.trans hq
        obtain ⟨hf1, hf2⟩ :=
          filterMissingPermissions_fst (c.hasAllPermissions (a :: as)).2 (a :: as) h2
        rw [hev.2.1] at hf1
        simp [permissionsCategory, hlen, hq, hcat, hval, specCategoryMissing, hf1, hf2]
      · have hval := h1.symm.trans hq
        simp [permissionsCategory, hlen, hq, hcat, hval, specCategoryMissing, h2]

theorem rolesCategory_evolves (c : PermissionChecker)
    (required : List String) (ra : Bool) :
    evolves c (c.rolesCategory required ra).2 := by
  unfold rolesCategory
  by_cases hl : required.length > 0
  · simp only [hl, if_true]
    rcases ra with _ | _
    · rcases hq : (c.hasAnyRole required).1 with _ | _
      · simpa [hq] using evolves_trans (hasAnyRole_evolves c required)
          (filterMissingRoles_evolves _ required)
      · simpa [hq] using hasAnyRole_evolves c required
    · rcases hq : (c.hasAllRoles required).1 with _ | _
      · simpa [hq] using evolves_trans (hasAllRoles_evolves c required)
          (filterMissingRoles_evolves _ required)
      · simpa [hq] using hasAllRoles_evolves c required
  · simpa [hl] using evolves_refl c

theorem rolesCategory_spec (c : PermissionChecker)
    (required : List String) (ra : Bool) (h : Inv c) :
    (c.rolesCategory required ra).1.1 =
        categorySatisfied (specHasRole c.roles) required ra ∧
    (c.rolesCategory required ra).1.2 =
        specCategoryMissing (specHasRole c.roles) required ra ∧
    Inv (c.rolesCategory required ra).2 := by
  cases required with
  | nil => simpa [rolesCategory, categorySatisfied, specCategoryMissing] using h
  | cons a as =>
    have hlen : (a :: as).length > 0 := Nat.succ_pos _
    rcases ra with _ | _
    · obtain ⟨h1, h2⟩ := hasAnyRole_fst c (a :: as) h
      have hev := hasAnyRole_evolves c (a :: as)
      have hcat : categorySatisfied (specHasRole c.roles) (a :: as) false
          = (a :: as).any (specHasRole c.roles) := by
        simp [categorySatisfied]
      rcases hq : (c.hasAnyRole (a :: as)).1 with _ | _
      · have hval := h1.symm.trans hq
        obtain ⟨hf1, hf2⟩ :=
          filterMissingRoles_fst (c.hasAnyRole (a :: as)).2 (a :: as) h2
        rw [hev.2.2.1] at hf1
        simp [rolesCategory, hlen, hq, hcat, hval, specCategoryMissing, hf1, hf2]
      · have hval := h1.symm.trans hq
        simp [rolesCategory, hlen, hq, hcat, hval, specCategoryMissing, h2]
    · obtain ⟨h1, h2⟩ := hasAllRoles_fst c (a :: as) h
      have hev := hasAllRoles_evolves c (a :: as)
      have hcat : categorySatisfied (specHasRole c.roles) (a :: as) true
          = (a :: as).all (specHasRole c.roles) := by
        simp [categorySatisfied]
      rcases hq : (c.hasAllRoles (a :: as)).1 with _ | _
      · have hval := h1.symm.trans hq
        obtain ⟨hf1, hf2⟩ :=
          filterMissingRoles_fst (c.hasAllRoles (a :: as)).2 (a :: as) h2
        rw [hev.2.2.1] at hf1
        simp [rolesCategory, hlen, hq, hcat, hval, specCategoryMissing, hf1, hf2]
      · have hval := h1.symm.trans hq
        simp [rolesCategory, hlen, hq, hcat, hval, specCategoryMissing, h2]

theorem guardsCategory_evolves (c : PermissionChecker)
    (required : List String) (ra : Bool) :
    evolves c (c.guardsCategory required ra).2 := by
  unfold guardsCategory
  by_cases hl : required.length > 0
  · simp only [hl, if_true]
    rcases ra with _ | _
    · rcases hq : (c.hasAnyGuard required).1 with _ | _
      · simpa [hq] using evolves_trans (hasAnyGuard_evolves c required)
          (filterMissingGuards_evolves _ required)
      · simpa [hq] using hasAnyGuard_evolves c required
    · rcases hq : (c.hasAllGuards required).1 with _ | _
      · simpa [hq] using evolves_trans (hasAllGuards_evolves c required)
          (filterMissingGuards_evolves _ required)
      · simpa [hq] using hasAllGuards_evolves c required
  · simpa [hl] using evolves_refl c

theorem guardsCategory_spec (c : PermissionChecker)
    (required : List String) (ra : Bool) (h : Inv c) :
    (c.guardsCategory required ra).1.1 =
        categorySatisfied (specHasGuard c.permissions) required ra ∧
    (c.guardsCategory required ra).1.2 =
        specCategoryMissing (specHasGuard c.permissions) required ra ∧
    Inv (c.guardsCategory required ra).2 := by
  cases required with
  | nil => simpa [guardsCategory, categorySatisfied, specCategoryMissing] using h
  | cons a as =>
    have hlen : (a :: as).length > 0 := Nat.succ_pos _
    rcases ra with _ | _
    · obtain ⟨h1, h2⟩ := hasAnyGuard_fst c (a :: as) h
      have hev := hasAnyGuard_evolves c (a :: as)
      have hcat : categorySatisfied (specHasGuard c.permissions) (a :: as) false
          = (a :: as).any (specHasGuard c.permissions) := by
        simp [categorySatisfied]
      rcases hq : (c.hasAnyGuard (a :: as)).1 with _ | _
      · have hval := h1.symm.trans hq
        obtain ⟨hf1, hf2⟩ :=
          filterMissingGuards_fst (c.hasAnyGuard (a :: as)).2 (a :: as) h2
        rw [hev.2.1] at hf1
        simp [guardsCategory, hlen, hq, hcat, hval, specCategoryMissing, hf1, hf2]
      · have hval := h1.symm.trans hq
        simp [guardsCategory, hlen, hq, hcat, hval, specCategoryMissing, h2]
    · obtain ⟨h1, h2⟩ := hasAllGuards_fst c (a :: as) h
      have hev := hasAllGuards_evolves c (a :: as)
      have hcat : categorySatisfied (specHasGuard c.permissions) (a :: as) true
          = (a :: as).all (specHasGuard c.permissions) := by
        simp [categorySatisfied]
      rcases hq : (c.hasAllGuards (a :: as)).1 with _ | _
      · have hval := h1.symm.trans hq
        obtain ⟨hf1, hf2⟩ :=
          filterMissingGuards_fst (c.hasAllGuards (a :: as)).2 (a :: as) h2
        rw [hev.2.1] at hf1
        simp [guardsCategory, hlen, hq, hcat, hval, specCategoryMissing, hf1, hf2]
      · have hval := h1.symm.trans hq
        simp [guardsCategory, hlen, hq, hcat, hval, specCategoryMissing, h2]

/-! ### The combined check -/

theorem checkPermissions_unauth (c : PermissionChecker) (opts : CheckOptions)
    (h : c.isAuthenticated = false) :
    (c.checkPermissions opts).1 =
      { hasPermission := false
        missingPermissions := []
        missingRoles := []
        userPermissions := []
        userRoles := []
        error := some (.authenticationError "User is not authenticated") } ∧
    (c.checkPermissions opts).2 = c := by
  constructor <;> simp [checkPermissions, h]

theorem checkPermissions_evolves (c : PermissionChecker) (opts : CheckOptions) :
    evolves c (c.checkPermissions opts).2 := by
  unfold checkPermissions
  rcases hauth : c.isAuthenticated with _ | _
  · simpa [hauth] using evolves_refl c
  · simpa [hauth] using
      evolves_trans (permissionsCategory_evolves c opts.requiredPermissions opts.requireAll)
        (evolves_trans (rolesCategory_evolves _ opts.requiredRoles opts.requireAll)
          (guardsCategory_evolves _ opts.requiredGuardNames opts.requireAll))

theorem checkPermissions_Inv (c : PermissionChecker) (opts : CheckOptions)
    (h : Inv c) : Inv (c.checkPermissions opts).2 := by
  unfold checkPermissions
  rcases hauth : c.isAuthenticated with _ | _
  · simpa [hauth] using h
  · have p3 := (permissionsCategory_spec c opts.requiredPermissions opts.requireAll h).2.2
    have r3 := (rolesCategory_spec _ opts.requiredRoles opts.requireAll p3).2.2
    have g3 := (guardsCategory_spec _ opts.requiredGuardNames opts.requireAll r3).2.2
    simpa [hauth] using g3

theorem checkPermissions_spec (c : PermissionChecker) (opts : CheckOptions)
    (h : Inv c) (hauth : c.isAuthenticated = true) :
    (c.checkPermissions opts).1 =
      { hasPermission :=
          categorySatisfied (specHasPermission c.permissions)
              opts.requiredPermissions opts.requireAll &&
            categorySatisfied (specHasRole c.roles)
              opts.requiredRoles opts.requireAll &&
            categorySatisfied (specHasGuard c.permissions)
              opts.requiredGuardNames opts.requireAll
        missingPermissions :=
          specCategoryMissing (specHasPermission c.permissions)
              opts.requiredPermissions opts.requireAll ++
            specCategoryMissing (specHasGuard c.permissions)
              opts.requiredGuardNames opts.requireAll
        missingRoles :=
          specCategoryMissing (specHasRole c.roles)
            opts.requiredRoles opts.requireAll
        userPermissions := c.permissions.map (fun p => p.name)
        userRoles := c.roles.map (fun r => r.name)
        error := none } := by
  obtain ⟨p1, p2, p3⟩ :=
    permissionsCategory_spec c opts.requiredPermissions opts.requireAll h
  have pev := permissionsCategory_evolves c opts.requiredPermissions opts.requireAll
  obtain ⟨r1, r2, r3⟩ :=
    rolesCategory_spec (c.permissionsCategory opts.requiredPermissions opts.requireAll).2
      opts.requiredRoles opts.requireAll p3
  have rev :=
    rolesCategory_evolves (c.permissionsCategory opts.requiredPermissions opts.requireAll).2
      opts.requiredRoles opts.requireAll
  rw [pev.2.2.1] at r1 r2
  obtain ⟨g1, g2, g3⟩ :=
    guardsCategory_spec
      ((c.permissionsCategory opts.requiredPermissions opts.requireAll).2.rolesCategory
        opts.requiredRoles opts.requireAll).2
      opts.requiredGuardNames opts.requireAll r3
  have hperm2 :
      ((c.permissionsCategory opts.requiredPermissions opts.requireAll).2.rolesCategory
          opts.requiredRoles opts.requireAll).2.permissions = c.permissions :=
    rev.2.1.trans pev.2.1
  rw [hperm2] at g1 g2
  simp [checkPermissions, hauth, p1, p2, r1, r2, g1, g2]

/-! ### Sequences of interface calls -/

theorem applyQuery_Inv (c : PermissionChecker) (q : Query) (h : Inv c) :
    Inv (c.applyQuery q) := by
  cases q with
  | qHasPermission n => exact hasPermission_Inv c n h
  | qHasPermissionByGuard n => exact hasPermissionByGuard_Inv c n h
  | qHasRole n => exact hasRole_Inv c n h
  | qHasAnyPermission ns => exact (hasAnyPermission_fst c ns h).2
  | qHasAllPermissions ns => exact (hasAllPermissions_fst c ns h).2
  | qHasAnyRole ns => exact (hasAnyRole_fst c ns h).2
  | qHasAllRoles ns => exact (hasAllRoles_fst c ns h).2
  | qHasAnyGuard ns => exact (hasAnyGuard_fst c ns h).2
  | qHasAllGuards ns => exact (hasAllGuards_fst c ns h).2
  | qCheckPermissions o => exact checkPermissions_Inv c o h
  | qClearCache => exact clearCache_Inv c

theorem applyQuery_evolves (c : PermissionChecker) (q : Query)
    (hq : q ≠ Query.qClearCache) : evolves c (c.applyQuery q) := by
  cases q with
  | qHasPermission n => exact hasPermission_evolves c n
  | qHasPermissionByGuard n => exact hasPermissionByGuard_evolves c n
  | qHasRole n => exact hasRole_evolves c n
  | qHasAnyPermission ns => exact hasAnyPermission_evolves c ns
  | qHasAllPermissions ns => exact hasAllPermissions_evolves c ns
  | qHasAnyRole ns => exact hasAnyRole_evolves c ns
  | qHasAllRoles ns => exact hasAllRoles_evolves c ns
  | qHasAnyGuard ns => exact hasAnyGuard_evolves c ns
  | qHasAllGuards ns => exact hasAllGuards_evolves c ns
  | qCheckPermissions o => exact checkPermissions_evolves c o
  | qClearCache => exact absurd rfl hq

theorem applyQuery_lists (c : PermissionChecker) (q : Query) :
    (c.applyQuery q).user = c.user ∧ (c.applyQuery q).permissions = c.permissions ∧
      (c.applyQuery q).roles = c.roles := by
  rcases hq : q with _ | _ | _ | _ | _ | _ | _ | _ | _ | _ | _
  case qClearCache => exact ⟨rfl, rfl, rfl⟩
  all_goals
    have hev := applyQuery_evolves c q (by simp [hq])
    rw [hq] at hev
    exact ⟨hev.1, hev.2.1, hev.2.2.1⟩

theorem applyQueries_Inv (c : PermissionChecker) (qs : List Query)
    (h : Inv c) : Inv (c.applyQueries qs) := by
  induction qs generalizing c with
  | nil => exact h
  | cons q rest ih => exact ih (c.applyQuery q) (applyQuery_Inv c q h)

theorem applyQueries_lists (c : PermissionChecker) (qs : List Query) :
    (c.applyQueries qs).user = c.user ∧
      (c.applyQueries qs).permissions = c.permissions ∧
      (c.applyQueries qs).roles = c.roles := by
  induction qs generalizing c with
  | nil => exact ⟨rfl, rfl, rfl⟩
  | cons q rest ih =>
    obtain ⟨h1, h2, h3⟩ := applyQuery_lists c q
    obtain ⟨i1, i2, i3⟩ := ih (c.applyQuery q)
    exact ⟨i1.trans h1, i2.trans h2, i3.trans h3⟩

end PermissionChecker

/-! ## The claims -/

open PermissionChecker

/-- C1: for every authenticated user (whatever calls were made earlier on
the instance) and every query, `checkPermissions` grants exactly the
conjunction of the three per-category results, where a category with a
non-empty required list follows its ALL/ANY rule per `requireAll` and a
category with an empty list is trivially satisfied; with all three
required lists empty the result is `true` for an authenticated user and
`false` for a null user. -/
theorem claim_C1 (u : User) (qs : List Query) (opts : CheckOptions) :
    ((((create (some u)).applyQueries qs).checkPermissions opts).1.hasPermission =
      (categorySatisfied (specHasPermission (u.permissions.getD []))
          opts.requiredPermissions opts.requireAll &&
        categorySatisfied (specHasRole (u.roles.getD []))
          opts.requiredRoles opts.requireAll &&
        categorySatisfied (specHasGuard (u.permissions.getD []))
          opts.requiredGuardNames opts.requireAll)) ∧
    ((((create (some u)).applyQueries qs).checkPermissions
        { requiredPermissions := [], requiredRoles := [], requiredGuardNames := [],
          requireAll := opts.requireAll }).1.hasPermission = true) ∧
    ((((create none).applyQueries qs).checkPermissions opts).1.hasPermission = false) := by
  have hinv := applyQueries_Inv _ qs (create_Inv (some u))
  have hl := applyQueries_lists (create (some u)) qs
  have hu : ((create (some u)).applyQueries qs).user = some u := hl.1.trans rfl
  have hauth : ((create (some u)).applyQueries qs).isAuthenticated = true := by
    simp only [isAuthenticated, hu, Option.isSome_some]
  have hperm : ((create (some u)).applyQueries qs).permissions = u.permissions.getD [] :=
    hl.2.1.trans rfl
  have hrole : ((create (some u)).applyQueries qs).roles = u.roles.getD [] :=
    hl.2.2.trans rfl
  refine ⟨?_, ?_, ?_⟩
  · rw [checkPermissions_spec _ opts hinv hauth]
    simp [hperm, hrole]
  · rw [checkPermissions_spec _ _ hinv hauth]
    simp [categorySatisfied]
  · have hl0 := applyQueries_lists (create none) qs
    have hu0 : ((create none).applyQueries qs).user = none := hl0.1.trans rfl
    have hauth0 : ((create none).applyQueries qs).isAuthenticated = false := by
      simp only [isAuthenticated, hu0, Option.isSome_none]
    rw [(checkPermissions_unauth _ opts hauth0).1]

/-- C2 as written fails on the code: the scenario-D user (no permissions,
role `admin`) queried with `requiredPermissions=["user.read"]`,
`requiredRoles=["admin"]`, `requireAll=false` gets `hasPermission =
false`, not `true` — the non-empty permissions category fails and the
categories combine with AND. -/
theorem claim_C2_counterexample :
    ((create (some scenarioUserD)).checkPermissions
      { requiredPermissions := ["user.read"], requiredRoles := ["admin"],
        requireAll := false }).1.hasPermission = false := by
  rfl

/-- C2 amended: for a user with an empty permissions list and roles
`[{name:"admin"}]`, `checkPermissions({requiredPermissions:["user.read"],
requiredRoles:["admin"], requireAll:false})` returns `hasPermission =
false` with `missingPermissions = ["user.read"]`, because every non-empty
category must independently pass. -/
theorem claim_C2_amended :
    ((create (some scenarioUserD)).checkPermissions
      { requiredPermissions := ["user.read"], requiredRoles := ["admin"],
        requireAll := false }).1 =
      { hasPermission := false
        missingPermissions := ["user.read"]
        missingRoles := []
        userPermissions := []
        userRoles := ["admin"]
        error := none } := by
  rfl

/-- C3: after any sequence of prior calls on the instance,
`hasPermission(n)` is true iff some permission in the user's list has
`name` exactly equal to `n`; any string is a legal argument. -/
theorem claim_C3 (u : Option User) (qs : List Query) (n : String) :
    ((((create u).applyQueries qs).hasPermission n).1 = true ↔
      ∃ p ∈ (u.bind User.permissions).getD [], p.name = n) := by
  have hinv := applyQueries_Inv _ qs (create_Inv u)
  have hperm : ((create u).applyQueries qs).permissions =
      (u.bind User.permissions).getD [] :=
    (applyQueries_lists (create u) qs).2.1.trans rfl
  rw [hasPermission_fst _ n hinv, hperm]
  simp [specHasPermission, List.any_eq_true]

/-- C4: `missingPermissions` is exactly the required permission names that
individually fail `hasPermission` (contributed only when the permissions
category failed its ANY/ALL rule) followed by the required guard names
that individually fail `hasPermissionByGuard` (contributed only when the
guards category failed); concretely, the scenario-B user holding only
`user.read`, queried with `requiredPermissions=["user.read","user.create"]`
and `requireAll=true`, gets `hasPermission=false` and
`missingPermissions=["user.create"]`. -/
theorem claim_C4 (u : User) (qs : List Query) (opts : CheckOptions) :
    ((((create (some u)).applyQueries qs).checkPermissions opts).1.missingPermissions =
      specCategoryMissing (specHasPermission (u.permissions.getD []))
          opts.requiredPermissions opts.requireAll ++
        specCategoryMissing (specHasGuard (u.permissions.getD []))
          opts.requiredGuardNames opts.requireAll) ∧
    (((create (some scenarioUserAB)).checkPermissions
        { requiredPermissions := ["user.read", "user.create"],
          requireAll := true }).1.hasPermission = false) ∧
    (((create (some scenarioUserAB)).checkPermissions
        { requiredPermissions := ["user.read", "user.create"],
          requireAll := true }).1.missingPermissions = ["user.create"]) := by
  have hinv := applyQueries_Inv _ qs (create_Inv (some u))
  have hl := applyQueries_lists (create (some u)) qs
  have hu : ((create (some u)).applyQueries qs).user = some u := hl.1.trans rfl
  have hauth : ((create (some u)).applyQueries qs).isAuthenticated = true := by
    simp only [isAuthenticated, hu, Option.isSome_some]
  have hperm : ((create (some u)).applyQueries qs).permissions = u.permissions.getD [] :=
    hl.2.1.trans rfl
  refine ⟨?_, by rfl, by rfl⟩
  rw [checkPermissions_spec _ opts hinv hauth]
  simp [hperm]

/-- C5: `checkPermissions` never throws to the caller: for a null user it
returns `hasPermission=false` with all four name lists empty and an
authentication error attached, and for an authenticated user the result
carries no error (in the embedding the only internally raised exception is
the authentication error, and it is converted, not propagated). -/
theorem claim_C5 (v : User) (qs : List Query) (opts : CheckOptions) :
    ((((create none).applyQueries qs).checkPermissions opts).1 =
      { hasPermission := false
        missingPermissions := []
        missingRoles := []
        userPermissions := []
        userRoles := []
        error := some (CheckError.authenticationError "User is not authenticated") }) ∧
    ((((create (some v)).applyQueries qs).checkPermissions opts).1.error = none) := by
  constructor
  · have hl0 := applyQueries_lists (create none) qs
    have hu0 : ((create none).applyQueries qs).user = none := hl0.1.trans rfl
    have hauth0 : ((create none).applyQueries qs).isAuthenticated = false := by
      simp only [isAuthenticated, hu0, Option.isSome_none]
    exact (checkPermissions_unauth _ opts hauth0).1
  · have hinv := applyQueries_Inv _ qs (create_Inv (some v))
    have hl := applyQueries_lists (create (some v)) qs
    have hu : ((create (some v)).applyQueries qs).user = some v := hl.1.trans rfl
    have hauth : ((create (some v)).applyQueries qs).isAuthenticated = true := by
      simp only [isAuthenticated, hu, Option.isSome_some]
    rw [checkPermissions_spec _ opts hinv hauth]

/-- C6: with a null user (whatever calls were made earlier),
`isAuthenticated()` is false and every `has*` query on a single name
returns false without throwing, while the `hasAll*` queries still return
true on an empty argument list. -/
theorem claim_C6 (qs : List Query) (n : String) :
    (((create none).applyQueries qs).isAuthenticated = false) ∧
    ((((create none).applyQueries qs).hasPermission n).1 = false) ∧
    ((((create none).applyQueries qs).hasPermissionByGuard n).1 = false) ∧
    ((((create none).applyQueries qs).hasRole n).1 = false) ∧
    ((((create none).applyQueries qs).hasAnyPermission [n]).1 = false) ∧
    ((((create none).applyQueries qs).hasAllPermissions [n]).1 = false) ∧
    ((((create none).applyQueries qs).hasAnyRole [n]).1 = false) ∧
    ((((create none).applyQueries qs).hasAllRoles [n]).1 = false) ∧
    ((((create none).applyQueries qs).hasAnyGuard [n]).1 = false) ∧
    ((((create none).applyQueries qs).hasAllGuards [n]).1 = false) ∧
    ((((create none).applyQueries qs).hasAllPermissions []).1 = true) ∧
    ((((create none).applyQueries qs).hasAllRoles []).1 = true) ∧
    ((((create none).applyQueries qs).hasAllGuards []).1 = true) := by
  have hinv := applyQueries_Inv _ qs (create_Inv none)
  have hl := applyQueries_lists (create none) qs
  have hu0 : ((create none).applyQueries qs).user = none := hl.1.trans rfl
  have hperm : ((create none).applyQueries qs).permissions = [] := hl.2.1.trans rfl
  have hrole : ((create none).applyQueries qs).roles = [] := hl.2.2.trans rfl
  refine ⟨by simp only [isAuthenticated, hu0, Option.isSome_none],
    ?_, ?_, ?_, ?_, ?_, ?_, ?_, ?_, ?_, rfl, rfl, rfl⟩
  · have h := hasPermission_fst ((create none).applyQueries qs) n hinv
    rw [hperm] at h
    simpa [specHasPermission] using h
  · have h := hasPermissionByGuard_fst ((create none).applyQueries qs) n hinv
    rw [hperm] at h
    simpa [specHasGuard] using h
  · have h := hasRole_fst ((create none).applyQueries qs) n hinv
    rw [hrole] at h
    simpa [specHasRole] using h
  · have h := (hasAnyPermission_fst ((create none).applyQueries qs) [n] hinv).1
    rw [hperm] at h
    simpa [specHasPermission] using h
  · have h := (hasAllPermissions_fst ((create none).applyQueries qs) [n] hinv).1
    rw [hperm] at h
    simpa [specHasPermission] using h
  · have h := (hasAnyRole_fst ((create none).applyQueries qs) [n] hinv).1
    rw [hrole] at h
    simpa [specHasRole] using h
  · have h := (hasAllRoles_fst ((create none).applyQueries qs) [n] hinv).1
    rw [hrole] at h
    simpa [specHasRole] using h
  · have h := (hasAnyGuard_fst ((create none).applyQueries qs) [n] hinv).1
    rw [hperm] at h
    simpa [specHasGuard] using h
  · have h := (hasAllGuards_fst ((create none).applyQueries qs) [n] hinv).1
    rw [hperm] at h
    simpa [specHasGuard] using h

/-- C7 as written fails on the code: the public `clearCache()` method
(middleWare.tsx lines 71-75) is a cache invalidation API that resets all
three caches, removing existing entries — here the cached entry for
`user.read` disappears after `clearCache`. -/
theorem claim_C7_counterexample :
    ((((create (some scenarioUserAB)).hasPermission
        "user.read").2).permissionCache.lookup "user.read" = some true) ∧
    ((((create (some scenarioUserAB)).hasPermission
        "user.read").2).clearCache.permissionCache.lookup "user.read" = none) := by
  constructor <;> rfl

/-- C7 amended: every interface operation other than `clearCache` is
append-only on the three lookup caches — an existing entry survives with
the same value — while `clearCache`, the one cache-clearing API, resets
all three caches to empty. -/
theorem claim_C7_amended (u : Option User) (qs : List Query) (q : Query)
    (n : String) (b : Bool) (hq : q ≠ Query.qClearCache) :
    ((((create u).applyQueries qs).permissionCache.lookup n = some b →
        (((create u).applyQueries qs).applyQuery q).permissionCache.lookup n = some b) ∧
      (((create u).applyQueries qs).roleCache.lookup n = some b →
        (((create u).applyQueries qs).applyQuery q).roleCache.lookup n = some b) ∧
      (((create u).applyQueries qs).guardCache.lookup n = some b →
        (((create u).applyQueries qs).applyQuery q).guardCache.lookup n = some b)) ∧
    (((create u).applyQueries qs).clearCache.permissionCache = [] ∧
      ((create u).applyQueries qs).clearCache.roleCache = [] ∧
      ((create u).applyQueries qs).clearCache.guardCache = []) := by
  have hev := applyQuery_evolves ((create u).applyQueries qs) q hq
  exact ⟨⟨hev.2.2.2.1 n b, hev.2.2.2.2.1 n b, hev.2.2.2.2.2 n b⟩, rfl, rfl, rfl⟩

theorem claim_C7_amended_witness :
    (Query.qHasRole "admin" ≠ Query.qClearCache) ∧
    (((((create (some emptyUser)).applyQueries [Query.qHasPermission "x"]).permissionCache.lookup "x" = some false →
        (((create (some emptyUser)).applyQueries [Query.qHasPermission "x"]).applyQuery (Query.qHasRole "admin")).permissionCache.lookup "x" = some false) ∧
      (((create (some emptyUser)).applyQueries [Query.qHasPermission "x"]).roleCache.lookup "x" = some false →
        (((create (some emptyUser)).applyQueries [Query.qHasPermission "x"]).applyQuery (Query.qHasRole "admin")).roleCache.lookup "x" = some false) ∧
      (((create (some emptyUser)).applyQueries [Query.qHasPermission "x"]).guardCache.lookup "x" = some false →
        (((create (some emptyUser)).applyQueries [Query.qHasPermission "x"]).applyQuery (Query.qHasRole "admin")).guardCache.lookup "x" = some false)) ∧
    (((create (some emptyUser)).applyQueries [Query.qHasPermission "x"]).clearCache.permissionCache = [] ∧
      ((create (some emptyUser)).applyQueries [Query.qHasPermission "x"]).clearCache.roleCache = [] ∧
      ((create (some emptyUser)).applyQueries [Query.qHasPermission "x"]).clearCache.guardCache = [])) :=
  ⟨by decide,
    claim_C7_amended (some emptyUser) [Query.qHasPermission "x"]
      (Query.qHasRole "admin") "x" false (by decide)⟩

/-- C8: the vacuous conventions hold on every instance state:
`hasAnyPermission([])` is false, `hasAllPermissions([])` is true, and the
same ANY/ALL conventions hold for roles and guard names. -/
theorem claim_C8 (c : PermissionChecker) :
    (c.hasAnyPermission []).1 = false ∧ (c.hasAllPermissions []).1 = true ∧
    (c.hasAnyRole []).1 = false ∧ (c.hasAllRoles []).1 = true ∧
    (c.hasAnyGuard []).1 = false ∧ (c.hasAllGuards []).1 = true :=
  ⟨rfl, rfl, rfl, rfl, rfl, rfl⟩

/-- C9: memoization idempotence — a second `hasPermission(n)` call on the
same instance, with any other interface calls interleaved, returns the
same boolean as the first call (the underlying permission list never
changes during the instance's life). -/
theorem claim_C9 (u : Option User) (qs qs2 : List Query) (n : String) :
    (((((create u).applyQueries qs).hasPermission n).2.applyQueries qs2).hasPermission n).1 =
      (((create u).applyQueries qs).hasPermission n).1 := by
  have hinv := applyQueries_Inv _ qs (create_Inv u)
  have hinv1 := hasPermission_Inv _ n hinv
  have hinv2 := applyQueries_Inv _ qs2 hinv1
  rw [hasPermission_fst _ n hinv, hasPermission_fst _ n hinv2]
  have e1 := (hasPermission_evolves ((create u).applyQueries qs) n).2.1
  have e2 := (applyQueries_lists (((create u).applyQueries qs).hasPermission n).2 qs2).2.1
  rw [e2, e1]

/-- C10: whenever `checkPermissions` grants, the two missing lists are
empty and `userPermissions` / `userRoles` are the in-order name
projections of the user's permission and role lists. -/
theorem claim_C10 (u : Option User) (qs : List Query) (opts : CheckOptions)
    (h : (((create u).applyQueries qs).checkPermissions opts).1.hasPermission = true) :
    ((((create u).applyQueries qs).checkPermissions opts).1.missingPermissions = []) ∧
    ((((create u).applyQueries qs).checkPermissions opts).1.missingRoles = []) ∧
    ((((create u).applyQueries qs).checkPermissions opts).1.userPermissions =
      ((u.bind User.permissions).getD []).map (fun p => p.name)) ∧
    ((((create u).applyQueries qs).checkPermissions opts).1.userRoles =
      ((u.bind User.roles).getD []).map (fun r => r.name)) := by
  rcases u with _ | v
  · exfalso
    have hl0 := applyQueries_lists (create none) qs
    have hu0 : ((create none).applyQueries qs).user = none := hl0.1.trans rfl
    have hauth0 : ((create none).applyQueries qs).isAuthenticated = false := by
      simp only [isAuthenticated, hu0, Option.isSome_none]
    rw [(checkPermissions_unauth _ opts hauth0).1] at h
    simp at h
  · have hinv := applyQueries_Inv _ qs (create_Inv (some v))
    have hl := applyQueries_lists (create (some v)) qs
    have hu : ((create (some v)).applyQueries qs).user = some v := hl.1.trans rfl
    have hauth : ((create (some v)).applyQueries qs).isAuthenticated = true := by
      simp only [isAuthenticated, hu, Option.isSome_some]
    have hperm : ((create (some v)).applyQueries qs).permissions = v.permissions.getD [] :=
      hl.2.1.trans rfl
    have hrole : ((create (some v)).applyQueries qs).roles = v.roles.getD [] :=
      hl.2.2.trans rfl
    have hs := checkPermissions_spec _ opts hinv hauth
    rw [hs] at h
    simp only [Bool.and_eq_true] at h
    obtain ⟨⟨hp, hr⟩, hg⟩ := h
    rw [hs]
    refine ⟨?_, ?_, ?_, ?_⟩
    · simp [specCategoryMissing, hp, hg]
    · simp [specCategoryMissing, hr]
    · simp [hperm]
    · simp [hrole]

theorem claim_C10_witness :
    ((((create (some scenarioUserAB)).applyQueries []).checkPermissions
        {}).1.hasPermission = true) ∧
    (((((create (some scenarioUserAB)).applyQueries []).checkPermissions
        {}).1.missingPermissions = []) ∧
      ((((create (some scenarioUserAB)).applyQueries []).checkPermissions
        {}).1.missingRoles = []) ∧
      ((((create (some scenarioUserAB)).applyQueries []).checkPermissions
        {}).1.userPermissions =
        (((some scenarioUserAB : Option User).bind User.permissions).getD []).map
          (fun p => p.name)) ∧
      ((((create (some scenarioUserAB)).applyQueries []).checkPermissions
        {}).1.userRoles =
        (((some scenarioUserAB : Option User).bind User.roles).getD []).map
          (fun r => r.name))) :=
  ⟨by rfl, claim_C10 (some scenarioUserAB) [] {} (by rfl)⟩
